import Mathlib

/-!
Verification development for the torecsys CTR building blocks:

* `torecsys/layers/ctr/attentional_factorization_machine.py`
  (`AttentionalFactorizationMachineLayer`)
* `torecsys/models/ctr/attentional_factorization_machine.py`
  (`AttentionalFactorizationMachineModel`)
* `torecsys/inputs/base/stacked_inp.py` (`StackedInputs`)
* `torecsys/layers/ctr/bilinear.py` (`BilinearNetworkLayer`)
* `torecsys/utils/training/trainer.py` (`Trainer`)

Tensors are modelled as nested lists over a linear ordered field (the source's
float tensors are idealized as exact arithmetic).  A tensor of shape (B, N, E)
is a `List (List (List α))` whose outer list has length B, whose matrices have
N rows, and whose rows have length E.  Each PyTorch operation used by the
source is translated to an explicit list operation; dropout layers are modelled
in evaluation mode (identity), which is shape-preserving exactly as in the
source.
-/

set_option maxHeartbeats 1000000

namespace Torecsys

/-- Matrix: a list of rows. -/
abbrev Mat (α : Type) := List (List α)

/-- Rank-3 tensor: a batch of matrices. -/
abbrev Ten3 (α : Type) := List (Mat α)

variable {α : Type}

/-- Dot product of two vectors (zip-truncating, as a shallow model). -/
def dot [Field α] (a b : List α) : α := (List.zipWith (· * ·) a b).sum

/-- Elementwise vector addition. -/
def vadd [Field α] (a b : List α) : List α := List.zipWith (· + ·) a b

/-- Model of `torch.nn.Linear(inDim, outDim)` applied to a vector:
`y k = dot (W k) x + b k`.  The output length is `min W.length b.length`
(equal to `outDim` for well-formed parameters). -/
def linearMap [Field α] (w : Mat α) (bv : List α) (x : List α) : List α :=
  List.zipWith (fun wk bk => dot wk x + bk) w bv

/-- Model of `torch.nn.ReLU` applied elementwise to a vector. -/
def reluV [LinearOrderedField α] (x : List α) : List α :=
  x.map (fun v => max v 0)

/-- Model of `torch.nn.Softmax(dim=1)` on one batch element of a (B, P, K)
tensor: rows are indexed by the dim-1 index p, and each column k is
normalized: `out p k = expF (m p k) / sum over q of expF (m q k)`.
`expF` is the exponential of the underlying scalar type. -/
def softmaxCols [Field α] (expF : α → α) (m : Mat α) : Mat α :=
  let e := m.map (fun row => row.map expF)
  e.map (fun row => row.mapIdx (fun k v => v / ((e.map (fun r => r.getD k 0)).sum)))

/-- Model of `torch.sum(t, dim=1)` on one batch element of a (B, P, E) tensor:
column sums of a P×E matrix, giving a length-E vector (for rectangular
nonempty input). -/
def colSums [Field α] (m : Mat α) : List α :=
  (m.headD []).mapIdx (fun k _ => (m.map (fun r => r.getD k 0)).sum)

/-- Elementwise product of two rows with PyTorch broadcasting on the last
dimension: a length-1 row is broadcast across the other row. -/
def bmulRow [Field α] (s v : List α) : List α :=
  if s.length = 1 then v.map (fun x => s.headD 0 * x) else List.zipWith (· * ·) s v

/-- Shape predicate: `t` is a (b, n, e) tensor. -/
def Shape3 (t : Ten3 α) (b n e : Nat) : Prop :=
  t.length = b ∧ ∀ m ∈ t, m.length = n ∧ ∀ r ∈ m, r.length = e

instance (t : Ten3 α) (b n e : Nat) : Decidable (Shape3 t b n e) := by
  unfold Shape3; infer_instance

/-! ### AttentionalFactorizationMachineLayer
Source: `torecsys/layers/ctr/attentional_factorization_machine.py`. -/

/-- Model of Python `range(s, e)`. -/
def pyRange (s e : Nat) : List Nat := (List.range (e - s)).map (fun k => s + k)

/-- The double loop of `AttentionalFactorizationMachineLayer.__init__`:
`for i in range(num_fields - 1): for j in range(i + 1, num_fields):
row_idx.append(i); col_idx.append(j)`, recorded as the list of appended
(i, j) pairs in append order. -/
def afmPairs (numFields : Nat) : List (Nat × Nat) :=
  (List.range (numFields - 1)).flatMap
    (fun i => (pyRange (i + 1) numFields).map (fun j => (i, j)))

/-- The `row_idx` list built by the constructor loop. -/
def afmRowIdx (numFields : Nat) : List Nat := (afmPairs numFields).map Prod.fst

/-- The `col_idx` list built by the constructor loop. -/
def afmColIdx (numFields : Nat) : List Nat := (afmPairs numFields).map Prod.snd

/-- Spec-side enumeration ("lexicographic order, all pairs (i, j) with
i < j over N fields"): i ranges over 0..N-1 and, for each i, j ranges over the
indices above i, in increasing order. -/
def lexPairs (n : Nat) : List (Nat × Nat) :=
  (List.range n).flatMap
    (fun i => ((List.range n).filter (fun j => i < j)).map (fun j => (i, j)))

/-- State of a constructed `AttentionalFactorizationMachineLayer`:
the attention `nn.Sequential` is `Linear(embed_size, attn_size)`, `ReLU`,
`Linear(attn_size, 1)`, `Softmax(dim=1)`, `Dropout`, with learned parameters
(w1, b1) and (w2, b2); plus the two constructor-built index lists. -/
structure AFMLayer (α : Type) where
  w1 : Mat α
  b1 : List α
  w2 : Mat α
  b2 : List α
  rowIdx : List Nat
  colIdx : List Nat

/-- Model of `AttentionalFactorizationMachineLayer.__init__`: the learned
linear parameters are construction inputs (the source draws them randomly);
`row_idx` / `col_idx` are computed by the double loop and stored. -/
def afmInit (w1 : Mat α) (b1 : List α) (w2 : Mat α) (b2 : List α)
    (numFields : Nat) : AFMLayer α :=
  ⟨w1, b1, w2, b2, afmRowIdx numFields, afmColIdx numFields⟩

/-- Model of `AttentionalFactorizationMachineLayer.__init__` as a fallible
constructor.  The source body contains no raise statement and no validation of
`num_fields`, so construction always succeeds. -/
def afmInitE (w1 : Mat α) (b1 : List α) (w2 : Mat α) (b2 : List α)
    (numFields : Nat) : Except String (AFMLayer α) :=
  Except.ok (afmInit w1 b1 w2 b2 numFields)

/-- One batch element of the pairwise interaction
`inner = emb_inputs[:, self.row_idx] * emb_inputs[:, self.col_idx]`:
gather the rows named by `row_idx` and by `col_idx` and multiply elementwise,
giving a C(N,2) × E matrix. -/
def afmInnerMat [Field α] (L : AFMLayer α) (m : Mat α) : Mat α :=
  List.zipWith (fun r c => List.zipWith (· * ·) r c)
    (L.rowIdx.map (fun i => m.getD i []))
    (L.colIdx.map (fun j => m.getD j []))

/-- One batch element of `AttentionalFactorizationMachineLayer.forward`
(every tensor operation of the source acts independently on each batch index):
`inner` as above; `attn_scores = self.attention(inner)` which is
linear1 → ReLU → out_proj → Softmax(dim=1) → Dropout (identity in evaluation
mode); `outputs = torch.sum(attn_scores * inner, dim=1)` with the length-1 last
dimension of the scores broadcast across E; final `self.dropout` is the
identity in evaluation mode.  Returns (outputs, attn_scores) for this batch
element. -/
def afmForwardMat [LinearOrderedField α] (expF : α → α) (L : AFMLayer α)
    (m : Mat α) : List α × Mat α :=
  let inner := afmInnerMat L m
  let h := inner.map (fun v => linearMap L.w2 L.b2 (reluV (linearMap L.w1 L.b1 v)))
  let scores := softmaxCols expF h
  (colSums (List.zipWith bmulRow scores inner), scores)

/-- Model of `AttentionalFactorizationMachineLayer.forward` on a (B, N, E)
tensor, in evaluation mode (dropout = identity).  The pooled output is
unsqueezed to (B, 1, E) exactly as `outputs.unsqueeze(1)`; the attention
scores tensor is returned unchanged alongside it. -/
def afmForwardGen [LinearOrderedField α] (expF : α → α) (L : AFMLayer α)
    (emb : Ten3 α) : Ten3 α × Ten3 α :=
  (emb.map (fun m => [(afmForwardMat expF L m).1]),
   emb.map (fun m => (afmForwardMat expF L m).2))

/-- The real-valued model of the layer forward, with the genuine exponential
in the softmax. -/
noncomputable def afmForward (L : AFMLayer ℝ) (emb : Ten3 ℝ) : Ten3 ℝ × Ten3 ℝ :=
  afmForwardGen Real.exp L emb

/-! ### AttentionalFactorizationMachineModel
Source: `torecsys/models/ctr/attentional_factorization_machine.py`.
The model's forward applies `.sum(dim=...)` to dynamically typed Python
values, so the values flowing through it are modelled by a small dynamic
value type. -/

/-- Dynamic Python value appearing in `AttentionalFactorizationMachineModel.forward`:
a rank-2 tensor, a rank-3 tensor, or a 2-tuple (the return value of the AFM
layer). -/
inductive PyVal (α : Type) where
  | ten2 (t : Mat α)
  | ten3 (t : Ten3 α)
  | tup (a b : PyVal α)

/-- Model of the attribute call `v.sum(dim=d)`.  Tensors reduce over the named
dimension; a tuple has no `sum` attribute, so the call raises
`AttributeError`. -/
def PyVal.sumDim [Field α] : PyVal α → Nat → Except String (PyVal α)
  | PyVal.ten3 t, 1 => Except.ok (PyVal.ten2 (t.map colSums))
  | PyVal.ten3 t, 2 => Except.ok (PyVal.ten2 (t.map (fun m => m.map List.sum)))
  | PyVal.ten2 t, 1 => Except.ok (PyVal.ten2 (t.map (fun r => [r.sum])))
  | PyVal.ten2 _, _ => Except.error "IndexError: dim out of range"
  | PyVal.ten3 _, _ => Except.error "IndexError: dim out of range"
  | PyVal.tup _ _, _ => Except.error "AttributeError: tuple object has no attribute sum"

/-- Model of `self.bias + linear_out + afm_out` (entrywise addition with the
scalar bias broadcast); only tensor operands are addable, anything else is a
`TypeError`.  This point is unreachable in the source because the preceding
statement raises. -/
def PyVal.addBias [Field α] (bias : α) : PyVal α → PyVal α → Except String (PyVal α)
  | PyVal.ten2 a, PyVal.ten2 b =>
      Except.ok (PyVal.ten2 (List.zipWith (fun r s => (vadd r s).map (fun x => bias + x)) a b))
  | _, _ => Except.error "TypeError: unsupported operand"

/-- State of a constructed `AttentionalFactorizationMachineModel`: the owned
AFM layer and the trainable scalar bias. -/
structure AFMModel (α : Type) where
  afm : AFMLayer α
  bias : α

/-- Model of `AttentionalFactorizationMachineModel.forward`:
`linear_out = inputs[first_order].sum(dim=1)`;
`afm_out = self.afm(inputs[second_order]).sum(dim=2)` — note that
`self.afm(...)` returns the 2-tuple `(outputs.unsqueeze(1), attn_scores)`, so
this `.sum` is an attribute access on a tuple;
`outputs = self.bias + linear_out + afm_out`. -/
noncomputable def afmModelForward (M : AFMModel ℝ) (firstOrder secondOrder : Ten3 ℝ) :
    Except String (PyVal ℝ) := do
  let linearOut ← (PyVal.ten3 firstOrder).sumDim 1
  let ret := afmForward M.afm secondOrder
  let afmOut ← (PyVal.tup (PyVal.ten3 ret.1) (PyVal.ten3 ret.2)).sumDim 2
  PyVal.addBias M.bias linearOut afmOut

/-! ### StackedInputs
Source: `torecsys/inputs/base/stacked_inp.py`.  The per-field embedding
modules are not part of the repository slice, so they are modelled from the
spec; the constructor check and the forward concatenation are translated from
the source. -/

/-- Modelled from the spec: an embedding input module (the external
collaborator class from `trs.inputs.base`), characterized by the embedding
width it reports via its length query (`len(module)`); invoked on the tensors
of its schema fields it returns a tensor of shape
(batch, number of its fields, width). -/
structure EmbModule where
  width : Nat
deriving DecidableEq

/-- A schema entry: an embedding module together with the list of input field
names it consumes. -/
abbrev SchemaEntry := EmbModule × List String

/-- State of a constructed `StackedInputs`. -/
structure StackedInputs where
  schema : List SchemaEntry
  length : Nat

/-- Model of `StackedInputs.__init__`:
`self.length = len(schema[0][0])` (an `IndexError` on an empty schema), then
`if not all(len(tup[0]) == self.length for tup in schema): raise ValueError`,
then the schema is stored. -/
def stackedInit (schema : List SchemaEntry) : Except String StackedInputs :=
  match schema with
  | [] => Except.error "IndexError: list index out of range"
  | s0 :: _ =>
      if schema.all (fun tup => tup.1.width == s0.1.width) then
        Except.ok ⟨schema, s0.1.width⟩
      else
        Except.error "ValueError: all inputs length (i.e. embed_size) must be same."

/-- Shape of a rank-3 tensor with the source's named axes (B, N, E). -/
structure ShapeBNE where
  b : Nat
  n : Nat
  e : Nat
deriving DecidableEq

/-- Model of `torch.cat(outputs, dim="E")` at shape level: concatenation along
the axis named E requires all remaining axes (B and N) to agree and sums the
E extents; an empty list or a mismatch is a runtime error. -/
def catDimE (shapes : List ShapeBNE) : Except String ShapeBNE :=
  match shapes with
  | [] => Except.error "RuntimeError: cat expects a non-empty list of tensors"
  | s0 :: rest =>
      if rest.all (fun s => s.b == s0.b && s.n == s0.n) then
        Except.ok ⟨s0.b, s0.n, (shapes.map (fun s => s.e)).sum⟩
      else
        Except.error "RuntimeError: sizes of tensors must match except in dimension E"

/-- Model of `StackedInputs.forward` at shape level, on a batch of size
`batch` containing every referenced field: each schema entry's module embeds
its (concatenated) field tensors into a tensor of shape
(batch, number of fields of the entry, module width) — the spec's collaborator
contract — and the collected outputs are concatenated by
`torch.cat(outputs, dim="E")`, i.e. along the axis named E. -/
def stackedForwardShape (st : StackedInputs) (batch : Nat) : Except String ShapeBNE :=
  catDimE (st.schema.map (fun tup => ⟨batch, tup.2.length, tup.1.width⟩))

/-- Spec-side shape for `StackedInputs.forward` as the claim states it:
(batch, N1 + ... + Nk, E) where Ni is each entry's field count and E the
shared width. -/
def stackedSpecShape (st : StackedInputs) (batch : Nat) : ShapeBNE :=
  ⟨batch, (st.schema.map (fun tup => tup.2.length)).sum, st.length⟩

/-! ### BilinearNetworkLayer
Source: `torecsys/layers/ctr/bilinear.py`. -/

/-- Parameters of one `torch.nn.Bilinear(I, I, I)` module:
`y k = dot x1 (map (fun row => dot row x2) (A k)) + b k`. -/
structure BilinearParams (α : Type) where
  a3 : Ten3 α
  bv : List α

/-- State of a constructed `BilinearNetworkLayer`: the resolved `inputs_size`
and the stacked bilinear modules. -/
structure BilinearLayer (α : Type) where
  inputsSize : Nat
  layers : List (BilinearParams α)

/-- Model of the sizing branch of `BilinearNetworkLayer.__init__`:
`if inputs_size is None and embed_size is not None and num_fields is not None:
inputs_size = embed_size * num_fields
elif inputs_size is not None and (embed_size is None or num_fields is None):
inputs_size = inputs_size
else: raise ValueError(...)`. -/
def bilinearResolveSize (embedSize numFields inputsSize : Option Nat) :
    Except String Nat :=
  match inputsSize, embedSize, numFields with
  | none, some e, some n => Except.ok (e * n)
  | some i, none, _ => Except.ok i
  | some i, some _, none => Except.ok i
  | _, _, _ =>
      Except.error "ValueError: Only allowed: 1. embed_size and num_fields is not None, and inputs_size is None 2. inputs_size is not None, and embed_size or num_fields is None"

/-- Model of `BilinearNetworkLayer.__init__`: resolve the sizing scheme, then
stack `num_layers` bilinear modules (their learned parameters are construction
inputs; the source draws them randomly). -/
def bilinearInit (numLayers : Nat) (params : Nat → BilinearParams α)
    (embedSize numFields inputsSize : Option Nat) :
    Except String (BilinearLayer α) := do
  let sz ← bilinearResolveSize embedSize numFields inputsSize
  Except.ok ⟨sz, (List.range numLayers).map params⟩

/-- Application of one `nn.Bilinear` module to vectors x1, x2. -/
def bilinearApply [Field α] (p : BilinearParams α) (x1 x2 : List α) : List α :=
  List.zipWith (fun ak bk => dot x1 (ak.map (fun row => dot row x2)) + bk) p.a3 p.bv

/-- Model of `BilinearNetworkLayer.forward` on one batch element:
`emb_inputs = emb_inputs.view(batch_size, -1)` flattens the N × E matrix to
the vector x0; `outputs = emb_inputs.detach().requires_grad_()` is a
value-equal copy of x0 (autograd bookkeeping only); then
`for layer in self.model: outputs = layer(emb_inputs, outputs) + emb_inputs`. -/
def bilinearForwardRow [Field α] (L : BilinearLayer α) (m : Mat α) : List α :=
  let x0 := m.flatten
  L.layers.foldl (fun outputs p => vadd (bilinearApply p x0 outputs) x0) x0

/-- Model of `BilinearNetworkLayer.forward` on a (B, N, E) tensor (each batch
row is processed independently by the flatten, the bilinear modules and the
residual additions). -/
def bilinearForward [Field α] (L : BilinearLayer α) (emb : Ten3 α) : Mat α :=
  emb.map (fun m => bilinearForwardRow L m)

/-- Spec-side recurrence of the claim: x 0 = x0 (the flattened input) and
x (i+1) = Bilinear (i+1) (x0, x i) + x0; the layer output is x at
`num_layers`. -/
def bilinearSpecX [Field α] (ps : List (BilinearParams α)) (x0 : List α) :
    Nat → List α
  | 0 => x0
  | i + 1 => vadd (bilinearApply (ps.getD i ⟨[], []⟩) x0 (bilinearSpecX ps x0 i)) x0

/-! ### Trainer
Source: `torecsys/utils/training/trainer.py`. -/

/-- State of a constructed `Trainer` relevant to `fit`: the learned parameter
vector (shared by embeddings, model and optimizer) and the configured epoch
count. -/
structure TrainerState where
  params : List ℚ
  epochs : Nat

/-- Lookup of a Python local variable; referencing a local that has not been
assigned yet raises `UnboundLocalError`. -/
def pyLocalLookup (env : List (String × Nat)) (name : String) : Except String Nat :=
  match env.find? (fun p => p.1 == name) with
  | some p => Except.ok p.2
  | none => Except.error ("UnboundLocalError: local variable " ++ name ++ " referenced before assignment")

/-- Model of `Trainer.fit(dataloader)`.  Result: the raised exception (if
any), the trainer state after the call, and the number of batch iterations
(`self._iterate` calls) executed.  Statement by statement:
`global_step = 0` binds the only local; `num_batch = len(batch_inputs)`
references the local `batch_inputs`, which is assigned only inside the later
`for i, (batch_inputs, labels) in enumerate(pbar)` loop, so the lookup raises
`UnboundLocalError` and nothing further executes.  (Were it reached,
`for epoch in self.epochs` would itself raise `TypeError`: `self.epochs` is an
int.)  `iterate` abstracts `self._iterate`, which is never reached. -/
def trainerFit (iterate : TrainerState → Nat → TrainerState × ℚ)
    (tr : TrainerState) (dataloader : List Nat) :
    Except String Unit × TrainerState × Nat :=
  let locals0 : List (String × Nat) := [("global_step", 0)]
  match pyLocalLookup locals0 "batch_inputs" with
  | Except.error e => (Except.error e, tr, 0)
  | Except.ok _numBatch =>
      let _ := iterate
      let _ := dataloader
      (Except.error "TypeError: int object is not iterable", tr, 0)

/-! ## Helper lemmas -/

theorem pyRange_length (s e : Nat) : (pyRange s e).length = e - s := by
  simp [pyRange]

theorem pyRange_empty (s e : Nat) (h : e ≤ s) : pyRange s e = [] := by
  unfold pyRange
  rw [Nat.sub_eq_zero_of_le h]
  rfl

theorem pyRange_succ_right (s e : Nat) (h : s ≤ e) :
    pyRange s (e + 1) = pyRange s e ++ [e] := by
  unfold pyRange
  rw [show e + 1 - s = (e - s) + 1 by omega, List.range_succ, List.map_append]
  simp
  omega

theorem filter_range_eq_pyRange (a : Nat) :
    ∀ n, (List.range n).filter (fun j => a < j) = pyRange (a + 1) n := by
  intro n
  induction n with
  | zero => simp [pyRange]
  | succ n ih =>
      rw [List.range_succ, List.filter_append, ih]
      by_cases h : a < n
      · rw [pyRange_succ_right _ _ (by omega)]
        simp [h]
      · rw [pyRange_empty _ _ (by omega), pyRange_empty _ _ (by omega)]
        simp [h]

theorem lexPairs_pyRange_form (n : Nat) :
    lexPairs n = (List.range n).flatMap
      (fun i => (pyRange (i + 1) n).map (fun j => (i, j))) := by
  unfold lexPairs
  simp only [filter_range_eq_pyRange]

theorem afmPairs_eq_lexPairs (n : Nat) : afmPairs n = lexPairs n := by
  rw [lexPairs_pyRange_form]
  unfold afmPairs
  cases n with
  | zero => rfl
  | succ m =>
      rw [List.range_succ, List.flatMap_append, Nat.succ_sub_one]
      rw [show ([m].flatMap fun i => (pyRange (i + 1) (m + 1)).map fun j => (i, j)) = [] by
        simp [pyRange_empty (m + 1) (m + 1) le_rfl]]
      simp

theorem sum_map_add_const (l : List Nat) (f : Nat → Nat) (c : Nat) :
    (l.map (fun x => f x + c)).sum = (l.map f).sum + c * l.length := by
  induction l with
  | nil => simp
  | cons a t ih =>
      simp [ih]
      ring

theorem sum_range_rev (m : Nat) :
    ((List.range m).map (fun i => m - i)).sum = (m + 1).choose 2 := by
  induction m with
  | zero => simp
  | succ m ih =>
      rw [List.range_succ, List.map_append, List.sum_append]
      have h1 : (List.range m).map (fun i => m + 1 - i)
          = (List.range m).map (fun i => (m - i) + 1) :=
        List.map_congr_left (fun i hi => by
          have := List.mem_range.mp hi
          omega)
      rw [h1, sum_map_add_const, ih]
      simp [Nat.choose_succ_succ (m + 1) 1, Nat.choose_one_right]
      omega

theorem afmPairs_length (n : Nat) : (afmPairs n).length = n.choose 2 := by
  unfold afmPairs
  rw [List.length_flatMap]
  simp only [Function.comp_def]
  have h1 : ((List.range (n - 1)).map
        fun i => ((pyRange (i + 1) n).map fun j => (i, j)).length)
      = (List.range (n - 1)).map (fun i => (n - 1) - i) :=
    List.map_congr_left (fun i _ => by
      simp [pyRange_length]
      omega)
  rw [h1]
  cases n with
  | zero => simp
  | succ m => simpa using sum_range_rev m

theorem afmPairs_mem (n : Nat) (p : Nat × Nat) (hp : p ∈ afmPairs n) :
    p.1 < p.2 ∧ p.2 < n := by
  unfold afmPairs at hp
  simp only [List.mem_flatMap, List.mem_map, List.mem_range, pyRange] at hp
  obtain ⟨i, hi, j, hj, rfl⟩ := hp
  obtain ⟨k, hk, rfl⟩ := hj
  constructor <;> [skip; skip] <;> simp <;> omega

theorem afmPairs_ne_nil (n : Nat) (h : 2 ≤ n) : afmPairs n ≠ [] := by
  intro hcon
  have := afmPairs_length n
  rw [hcon] at this
  have hpos : 0 < n.choose 2 := Nat.choose_pos h
  simp at this
  omega

theorem zip_of_map_fst_snd (l : List (Nat × Nat)) :
    (l.map Prod.fst).zip (l.map Prod.snd) = l := by
  induction l with
  | nil => rfl
  | cons a t ih => simp [ih]

/-! ## Claim theorems -/

/-- C1: for every `num_fields` N ≥ 2, construction of
`AttentionalFactorizationMachineLayer` produces index lists `row_idx` and
`col_idx` that enumerate exactly C(N,2) pairs (i, j) with i < j, in
lexicographic order (i outer loop, j inner loop); the lists are stored in the
layer at construction (forward only reads them). -/
theorem afm_pair_indices_lex (w1 : Mat ℚ) (b1 : List ℚ) (w2 : Mat ℚ) (b2 : List ℚ)
    (n : Nat) (h : 2 ≤ n) :
    ((afmInit w1 b1 w2 b2 n).rowIdx.zip (afmInit w1 b1 w2 b2 n).colIdx = lexPairs n)
    ∧ (afmInit w1 b1 w2 b2 n).rowIdx.length = n.choose 2
    ∧ (afmInit w1 b1 w2 b2 n).colIdx.length = n.choose 2
    ∧ ∀ p ∈ (afmInit w1 b1 w2 b2 n).rowIdx.zip (afmInit w1 b1 w2 b2 n).colIdx,
        p.1 < p.2 := by
  have hz : (afmInit w1 b1 w2 b2 n).rowIdx.zip (afmInit w1 b1 w2 b2 n).colIdx
      = afmPairs n := by
    simp only [afmInit, afmRowIdx, afmColIdx]
    exact zip_of_map_fst_snd (afmPairs n)
  refine ⟨by rw [hz]; exact afmPairs_eq_lexPairs n, ?_, ?_, ?_⟩
  · simp [afmInit, afmRowIdx, afmPairs_length]
  · simp [afmInit, afmColIdx, afmPairs_length]
  · intro p hp
    rw [hz] at hp
    exact (afmPairs_mem n p hp).1

/-- Witness for C1 at N = 4: the constructed lists give exactly the pairs
(0,1)(0,2)(0,3)(1,2)(1,3)(2,3), i.e. C(4,2) = 6 pairs in lexicographic
order. -/
theorem afm_pair_indices_lex_witness :
    (2 ≤ 4
      ∧ (afmInit ([] : Mat ℚ) [] [] [] 4).rowIdx.zip (afmInit ([] : Mat ℚ) [] [] [] 4).colIdx
          = lexPairs 4)
    ∧ (afmInit ([] : Mat ℚ) [] [] [] 4).rowIdx.zip (afmInit ([] : Mat ℚ) [] [] [] 4).colIdx
        = [(0, 1), (0, 2), (0, 3), (1, 2), (1, 3), (2, 3)] :=
  ⟨⟨by decide, (afm_pair_indices_lex [] [] [] [] 4 (by decide)).1⟩, by decide⟩

/-- C9 counterexample: the claim says construction with `num_fields = 1` must
raise a configuration error, but `AttentionalFactorizationMachineLayer.__init__`
contains no guard: at `num_fields = 1` it returns a layer whose pair index
lists are empty. -/
theorem afm_init_single_field_counterexample :
    afmInitE ([[1]] : Mat ℚ) [0] [[1]] [0] 1
      = Except.ok ⟨[[1]], [0], [[1]], [0], [], []⟩ := by
  rfl

/-- C9 amended: for `num_fields = 1` construction succeeds (no error is
raised) and produces a layer with an empty pairwise index set
(`row_idx = col_idx = []`), leaving the degenerate case unguarded. -/
theorem afm_init_single_field_no_guard (w1 : Mat ℚ) (b1 : List ℚ) (w2 : Mat ℚ)
    (b2 : List ℚ) :
    afmInitE w1 b1 w2 b2 1 = Except.ok ⟨w1, b1, w2, b2, [], []⟩ := by
  rfl

/-- C6: `StackedInputs` construction raises `ValueError` exactly when the
schema's embedding modules do not all report the first module's embedding
width; with all widths equal, construction succeeds (storing the schema and
the shared width).  The check runs in `__init__`, before any forward call. -/
theorem stacked_init_width_check (s0 : SchemaEntry) (rest : List SchemaEntry) :
    ((¬ ∀ t ∈ s0 :: rest, t.1.width = s0.1.width) →
        stackedInit (s0 :: rest)
          = Except.error "ValueError: all inputs length (i.e. embed_size) must be same.")
    ∧ ((∀ t ∈ s0 :: rest, t.1.width = s0.1.width) →
        stackedInit (s0 :: rest) = Except.ok ⟨s0 :: rest, s0.1.width⟩) := by
  have hiff : (((s0 :: rest).all fun tup => tup.1.width == s0.1.width) = true) ↔
      ∀ t ∈ s0 :: rest, t.1.width = s0.1.width := by
    rw [List.all_eq_true]
    constructor
    · intro hall t ht
      exact beq_iff_eq.mp (hall t ht)
    · intro hall t ht
      exact beq_iff_eq.mpr (hall t ht)
  constructor
  · intro hmis
    simp only [stackedInit]
    rw [if_neg (fun hc => hmis (hiff.mp hc))]
  · intro hall
    simp only [stackedInit]
    rw [if_pos (hiff.mpr hall)]

/-- Witness for C6: a two-entry schema with widths 4 and 5 raises `ValueError`
at construction, and the same schema with widths 4 and 4 constructs
successfully. -/
theorem stacked_init_width_check_witness :
    stackedInit [(⟨4⟩, ["userId"]), (⟨5⟩, ["movieId"])]
        = Except.error "ValueError: all inputs length (i.e. embed_size) must be same."
    ∧ stackedInit [(⟨4⟩, ["userId"]), (⟨4⟩, ["movieId"])]
        = Except.ok ⟨[(⟨4⟩, ["userId"]), (⟨4⟩, ["movieId"])], 4⟩ :=
  ⟨(stacked_init_width_check (⟨4⟩, ["userId"]) [(⟨5⟩, ["movieId"])]).1 (by decide),
   (stacked_init_width_check (⟨4⟩, ["userId"]) [(⟨4⟩, ["movieId"])]).2 (by decide)⟩

/-- C7 counterexample: the claim says any sizing combination other than the
two exact schemes raises, in particular `inputs_size` together with
`embed_size` (and `num_fields` omitted) would have to raise; but the source's
`elif inputs_size is not None and (embed_size is None or num_fields is None)`
accepts it, resolving the size to `inputs_size`. -/
theorem bilinear_init_mixed_sizing_accepted :
    bilinearInit (α := ℚ) 2 (fun _ => ⟨[], []⟩) (some 4) none (some 8)
      = Except.ok ⟨8, [⟨[], []⟩, ⟨[], []⟩]⟩ := by
  rfl

/-- C7 amended: `BilinearNetworkLayer` construction raises `ValueError`
exactly when `inputs_size` is omitted and `embed_size` or `num_fields` is also
omitted, or when all three of `embed_size`, `num_fields`, `inputs_size` are
given; `inputs_size` given together with exactly one of `embed_size` /
`num_fields` is accepted (the size resolves to `inputs_size`). -/
theorem bilinear_init_sizing_error_iff (numLayers : Nat)
    (params : Nat → BilinearParams ℚ) (e n i : Option Nat) :
    (∃ msg, bilinearInit numLayers params e n i = Except.error msg) ↔
      ((i = none ∧ (e = none ∨ n = none)) ∨ (i ≠ none ∧ e ≠ none ∧ n ≠ none)) := by
  cases i <;> cases e <;> cases n <;>
    simp [bilinearInit, bilinearResolveSize, Except.bind, bind]

/-- C10: for every constructed `Trainer` state and every dataloader,
`Trainer.fit` raises `UnboundLocalError` at the statement
`num_batch = len(batch_inputs)` (the local `batch_inputs` is assigned only in
the later batch loop), before any batch is iterated: zero `_iterate` calls are
made — hence no forward pass, backward pass or optimizer step — and the
parameter state is returned unmodified. -/
theorem trainer_fit_unbound_local (iterate : TrainerState → Nat → TrainerState × ℚ)
    (tr : TrainerState) (dataloader : List Nat) :
    trainerFit iterate tr dataloader
      = (Except.error
          "UnboundLocalError: local variable batch_inputs referenced before assignment",
         tr, 0) := by
  rfl

/-- C2: evaluation of `StackedInputs.forward` (at shape level) on the claim's
concrete schema — two single-index embeddings of width 4 with one field each —
at batch size 3.  The source concatenates the per-entry outputs with
`torch.cat(outputs, dim="E")`, i.e. along the axis named E, producing shape
(3, 1, 8); the claim (and the class's own docstring) say (3, 2, 4). -/
theorem stacked_forward_cat_axis_bug :
    stackedInit [(⟨4⟩, ["userId"]), (⟨4⟩, ["movieId"])]
        = Except.ok ⟨[(⟨4⟩, ["userId"]), (⟨4⟩, ["movieId"])], 4⟩
    ∧ stackedForwardShape ⟨[(⟨4⟩, ["userId"]), (⟨4⟩, ["movieId"])], 4⟩ 3
        = Except.ok ⟨3, 1, 8⟩
    ∧ stackedSpecShape ⟨[(⟨4⟩, ["userId"]), (⟨4⟩, ["movieId"])], 4⟩ 3 = ⟨3, 2, 4⟩
    ∧ stackedForwardShape ⟨[(⟨4⟩, ["userId"]), (⟨4⟩, ["movieId"])], 4⟩ 3
        ≠ Except.ok (stackedSpecShape ⟨[(⟨4⟩, ["userId"]), (⟨4⟩, ["movieId"])], 4⟩ 3) := by
  refine ⟨rfl, rfl, rfl, ?_⟩
  intro hcon
  simp [stackedForwardShape, stackedSpecShape, catDimE] at hcon

/-- C5: for every constructed `AttentionalFactorizationMachineModel` and all
input tensors, `forward` raises `AttributeError`: `self.afm(...)` returns the
2-tuple `(outputs.unsqueeze(1), attn_scores)` and the source immediately calls
`.sum(dim=2)` on that tuple — so no prediction `bias + linear + afm` of shape
(batch, 1) is ever produced, contradicting the model's own docstring. -/
theorem afm_model_forward_raises (M : AFMModel ℝ) (firstOrder secondOrder : Ten3 ℝ) :
    afmModelForward M firstOrder secondOrder
      = Except.error "AttributeError: tuple object has no attribute sum" := by
  rfl

theorem getD_append_left_of_lt {β : Type} (l1 l2 : List β) (d : β) (i : Nat)
    (h : i < l1.length) : (l1 ++ l2).getD i d = l1.getD i d := by
  simp [List.getD, List.getElem?_append_left h]

theorem getD_append_at_length {β : Type} (l1 : List β) (x : β) (d : β) :
    (l1 ++ [x]).getD l1.length d = x := by
  simp [List.getD, List.getElem?_append_right (le_refl l1.length)]

theorem bilinearSpecX_append (ps : List (BilinearParams ℚ)) (l : BilinearParams ℚ)
    (x0 : List ℚ) : ∀ i, i ≤ ps.length →
    bilinearSpecX (ps ++ [l]) x0 i = bilinearSpecX ps x0 i := by
  intro i
  induction i with
  | zero => intro _; rfl
  | succ i ih =>
      intro hle
      rw [bilinearSpecX, bilinearSpecX, ih (by omega),
        getD_append_left_of_lt ps [l] _ i (by omega)]

theorem foldl_eq_bilinearSpecX (x0 : List ℚ) (ps : List (BilinearParams ℚ)) :
    ps.foldl (fun outputs p => vadd (bilinearApply p x0 outputs) x0) x0
      = bilinearSpecX ps x0 ps.length := by
  induction ps using List.reverseRecOn with
  | nil => rfl
  | append_singleton ps l ih =>
      rw [List.foldl_append, List.foldl_cons, List.foldl_nil, ih,
        show (ps ++ [l]).length = ps.length + 1 by simp,
        bilinearSpecX, bilinearSpecX_append ps l x0 ps.length le_rfl,
        getD_append_at_length ps l _]

theorem sum_map_const_nat {β : Type} (l : List β) (c : Nat) :
    (l.map (fun _ => c)).sum = l.length * c := by
  induction l with
  | nil => simp
  | cons a t ih =>
      simp [ih]
      ring

theorem flatten_length_of_shape (m : Mat ℚ) (nn e : Nat) (hlen : m.length = nn)
    (h : ∀ r ∈ m, r.length = e) : m.flatten.length = nn * e := by
  rw [List.length_flatten,
    show m.map List.length = m.map (fun _ => e) from List.map_congr_left h,
    sum_map_const_nat, hlen]

/-- C8: `BilinearNetworkLayer.forward` on a (B, N, E) input flattens each
batch row to the vector x0 of length N·E, and for a layer built with
`num_layers` modules the returned row is x at `num_layers` of the recurrence
x 0 = x0, x (i+1) = Bilinear (i+1) (x0, x i) + x0: each step feeds the
flattened original input as first bilinear operand and the running output as
second, then adds the flattened original input back as a residual. -/
theorem bilinear_forward_residual (numLayers : Nat) (params : Nat → BilinearParams ℚ)
    (e n i : Option Nat) (L : BilinearLayer ℚ) (emb : Ten3 ℚ) (B N E : Nat)
    (hL : bilinearInit numLayers params e n i = Except.ok L)
    (hshape : Shape3 emb B N E) :
    L.layers.length = numLayers
    ∧ bilinearForward L emb
        = emb.map (fun m => bilinearSpecX L.layers m.flatten numLayers)
    ∧ ∀ m ∈ emb, m.flatten.length = N * E := by
  have hlayers : L.layers = (List.range numLayers).map params := by
    unfold bilinearInit at hL
    cases hres : bilinearResolveSize e n i with
    | error msg => rw [hres] at hL; exact absurd hL (by simp [Except.bind, bind])
    | ok sz =>
        rw [hres] at hL
        have : Except.ok (ε := String) (BilinearLayer.mk (α := ℚ) sz
            ((List.range numLayers).map params)) = Except.ok L := hL
        cases this
        rfl
  have hnum : L.layers.length = numLayers := by simp [hlayers]
  refine ⟨hnum, ?_, ?_⟩
  · unfold bilinearForward bilinearForwardRow
    exact List.map_congr_left (fun m _ => by
      rw [foldl_eq_bilinearSpecX m.flatten L.layers, hnum])
  · intro m hm
    obtain ⟨-, h2⟩ := hshape
    obtain ⟨hlen, hrows⟩ := h2 m hm
    exact flatten_length_of_shape m N E hlen hrows

/-- Witness for C8: a one-layer bilinear network on a (1, 1, 2) input; the
hypotheses are discharged at the concrete construction and input. -/
theorem bilinear_forward_residual_witness :
    bilinearInit 1 (fun _ => BilinearParams.mk ([[[1, 0], [0, 1]]] : Ten3 ℚ) [3])
        (some 2) (some 1) none
      = Except.ok ⟨2, [⟨[[[1, 0], [0, 1]]], [3]⟩]⟩
    ∧ Shape3 ([[[5, 7]]] : Ten3 ℚ) 1 1 2
    ∧ (⟨2, [⟨[[[1, 0], [0, 1]]], [3]⟩]⟩ : BilinearLayer ℚ).layers.length = 1
    ∧ bilinearForward (⟨2, [⟨[[[1, 0], [0, 1]]], [3]⟩]⟩ : BilinearLayer ℚ) [[[5, 7]]]
        = ([[[5, 7]]] : Ten3 ℚ).map
            (fun m => bilinearSpecX [⟨[[[1, 0], [0, 1]]], [3]⟩] m.flatten 1)
    ∧ ∀ m ∈ ([[[5, 7]]] : Ten3 ℚ), m.flatten.length = 1 * 2 := by
  refine ⟨by rfl, by decide, ?_⟩
  have h := bilinear_forward_residual 1 (fun _ => BilinearParams.mk [[[1, 0], [0, 1]]] [3])
    (some 2) (some 1) none ⟨2, [⟨[[[1, 0], [0, 1]]], [3]⟩]⟩ [[[5, 7]]] 1 1 2
    (by rfl) (by decide)
  exact h

theorem mem_of_mem_zipWith {β γ δ : Type} {f : β → γ → δ} :
    ∀ {l1 : List β} {l2 : List γ} {x : δ}, x ∈ List.zipWith f l1 l2 →
      ∃ p ∈ l1, ∃ q ∈ l2, x = f p q := by
  intro l1
  induction l1 with
  | nil => intro l2 x hx; simp at hx
  | cons p t ih =>
      intro l2 x hx
      cases l2 with
      | nil => simp at hx
      | cons q s =>
          rw [List.zipWith_cons_cons] at hx
          rcases List.mem_cons.mp hx with h1 | h2
          · exact ⟨p, List.mem_cons_self _ _, q, List.mem_cons_self _ _, h1⟩
          · obtain ⟨p1, hp1, q1, hq1, rfl⟩ := ih h2
            exact ⟨p1, List.mem_cons_of_mem _ hp1, q1, List.mem_cons_of_mem _ hq1, rfl⟩

theorem headD_mem {β : Type} (l : List β) (hne : l ≠ []) (d : β) : l.headD d ∈ l := by
  cases l with
  | nil => exact absurd rfl hne
  | cons a t => exact List.mem_cons_self _ _

theorem zipWith_headD {β γ δ : Type} (f : β → γ → δ) (l1 : List β) (l2 : List γ)
    (h1 : l1 ≠ []) (h2 : l2 ≠ []) (d1 : β) (d2 : γ) (d : δ) :
    (List.zipWith f l1 l2).headD d = f (l1.headD d1) (l2.headD d2) := by
  cases l1 with
  | nil => exact absurd rfl h1
  | cons a t =>
      cases l2 with
      | nil => exact absurd rfl h2
      | cons b s => rfl

theorem linearMap_length {α : Type} [Field α] (w : Mat α) (bv x : List α) :
    (linearMap w bv x).length = min w.length bv.length := by
  simp [linearMap]

theorem softmaxCols_length {α : Type} [Field α] (expF : α → α) (m : Mat α) :
    (softmaxCols expF m).length = m.length := by
  simp [softmaxCols]

theorem softmaxCols_row_lengths {α : Type} [Field α] (expF : α → α) (m : Mat α)
    (k : Nat) (h : ∀ r ∈ m, r.length = k) :
    ∀ r ∈ softmaxCols expF m, r.length = k := by
  intro r hr
  simp only [softmaxCols, List.mem_map] at hr
  obtain ⟨r1, hr1, rfl⟩ := hr
  obtain ⟨r0, hr0, rfl⟩ := hr1
  simp [List.length_mapIdx, h r0 hr0]

theorem getD_row_length {α : Type} (m : Mat α) (e : Nat)
    (h : ∀ r ∈ m, r.length = e) (i : Nat) (hi : i < m.length) :
    (m.getD i []).length = e := by
  have hg : m.getD i [] = m[i] := by simp [List.getD, List.getElem?_eq_getElem hi]
  rw [hg]
  exact h _ (List.getElem_mem hi)

theorem colSums_length {α : Type} [Field α] (m : Mat α) :
    (colSums m).length = (m.headD []).length := by
  simp [colSums, List.length_mapIdx]

theorem bmulRow_length_of_scalar {α : Type} [Field α] (s v : List α)
    (hs : s.length = 1) : (bmulRow s v).length = v.length := by
  simp [bmulRow, hs]

theorem afmRowIdx_length (n : Nat) : (afmRowIdx n).length = n.choose 2 := by
  simp [afmRowIdx, afmPairs_length]

theorem afmColIdx_length (n : Nat) : (afmColIdx n).length = n.choose 2 := by
  simp [afmColIdx, afmPairs_length]

theorem afmRowIdx_lt (n : Nat) : ∀ i ∈ afmRowIdx n, i < n := by
  intro i hi
  simp only [afmRowIdx, List.mem_map] at hi
  obtain ⟨p, hp, rfl⟩ := hi
  have := afmPairs_mem n p hp
  omega

theorem afmColIdx_lt (n : Nat) : ∀ j ∈ afmColIdx n, j < n := by
  intro j hj
  simp only [afmColIdx, List.mem_map] at hj
  obtain ⟨p, hp, rfl⟩ := hj
  have := afmPairs_mem n p hp
  omega

theorem afmInnerMat_length {α : Type} [Field α] (L : AFMLayer α) (m : Mat α) :
    (afmInnerMat L m).length = min L.rowIdx.length L.colIdx.length := by
  simp [afmInnerMat]

theorem afmInnerMat_row_lengths {α : Type} [Field α] (L : AFMLayer α) (m : Mat α)
    (N E : Nat) (hm : m.length = N) (hr : ∀ r ∈ m, r.length = E)
    (h1 : ∀ i ∈ L.rowIdx, i < N) (h2 : ∀ j ∈ L.colIdx, j < N) :
    ∀ r ∈ afmInnerMat L m, r.length = E := by
  intro r hrmem
  unfold afmInnerMat at hrmem
  obtain ⟨p, hp, q, hq, rfl⟩ := mem_of_mem_zipWith hrmem
  rcases List.mem_map.mp hp with ⟨i, hi, rfl⟩
  rcases List.mem_map.mp hq with ⟨j, hj, rfl⟩
  rw [List.length_zipWith,
    getD_row_length m E hr i (by rw [hm]; exact h1 i hi),
    getD_row_length m E hr j (by rw [hm]; exact h2 j hj)]
  simp

theorem afmForwardMat_shape {α : Type} [LinearOrderedField α] (expF : α → α)
    (w1 : Mat α) (b1 : List α) (w2 : Mat α) (b2 : List α) (N E : Nat) (m : Mat α)
    (hm : m.length = N) (hr : ∀ r ∈ m, r.length = E) (hN : 2 ≤ N)
    (hw2 : w2.length = 1) (hb2 : b2.length = 1) :
    (afmForwardMat expF (afmInit w1 b1 w2 b2 N) m).1.length = E
    ∧ (afmForwardMat expF (afmInit w1 b1 w2 b2 N) m).2.length = N.choose 2
    ∧ ∀ r ∈ (afmForwardMat expF (afmInit w1 b1 w2 b2 N) m).2, r.length = 1 := by
  have hinner_len : (afmInnerMat (afmInit w1 b1 w2 b2 N) m).length = N.choose 2 := by
    rw [afmInnerMat_length]
    show min (afmRowIdx N).length (afmColIdx N).length = N.choose 2
    rw [afmRowIdx_length, afmColIdx_length]
    simp
  have hinner_rows : ∀ r ∈ afmInnerMat (afmInit w1 b1 w2 b2 N) m, r.length = E := by
    apply afmInnerMat_row_lengths _ _ N E hm hr
    · exact afmRowIdx_lt N
    · exact afmColIdx_lt N
  have hhm_rows : ∀ r ∈ (afmInnerMat (afmInit w1 b1 w2 b2 N) m).map
      (fun v => linearMap w2 b2 (reluV (linearMap w1 b1 v))), r.length = 1 := by
    intro r hrr
    rcases List.mem_map.mp hrr with ⟨v, hv, rfl⟩
    simp [linearMap_length, hw2, hb2]
  have hhm_len : ((afmInnerMat (afmInit w1 b1 w2 b2 N) m).map
      (fun v => linearMap w2 b2 (reluV (linearMap w1 b1 v)))).length = N.choose 2 := by
    simpa using hinner_len
  have hpos : 0 < N.choose 2 := Nat.choose_pos hN
  have hscl : (afmForwardMat expF (afmInit w1 b1 w2 b2 N) m).2.length = N.choose 2 := by
    show (softmaxCols expF _).length = N.choose 2
    rw [softmaxCols_length]
    exact hhm_len
  have hscrows : ∀ r ∈ (afmForwardMat expF (afmInit w1 b1 w2 b2 N) m).2, r.length = 1 := by
    show ∀ r ∈ softmaxCols expF _, r.length = 1
    exact softmaxCols_row_lengths expF _ 1 hhm_rows
  refine ⟨?_, hscl, hscrows⟩
  have hscne : (afmForwardMat expF (afmInit w1 b1 w2 b2 N) m).2 ≠ [] :=
    List.length_pos.mp (by rw [hscl]; exact hpos)
  have hinne : afmInnerMat (afmInit w1 b1 w2 b2 N) m ≠ [] :=
    List.length_pos.mp (by rw [hinner_len]; exact hpos)
  show (colSums (List.zipWith bmulRow (afmForwardMat expF (afmInit w1 b1 w2 b2 N) m).2
      (afmInnerMat (afmInit w1 b1 w2 b2 N) m))).length = E
  rw [colSums_length,
    zipWith_headD bmulRow _ _ hscne hinne [] [] [],
    bmulRow_length_of_scalar _ _ (hscrows _ (headD_mem _ hscne []))]
  exact hinner_rows _ (headD_mem _ hinne [])

theorem sum_map_div_real {β : Type} (l : List β) (f : β → ℝ) (c : ℝ) :
    (l.map (fun x => f x / c)).sum = (l.map f).sum / c := by
  induction l with
  | nil => simp
  | cons a t ih => simp [ih, add_div]

theorem softmaxCols_sum_one (m : Mat ℝ) (hne : m ≠ [])
    (hrow : ∀ r ∈ m, r.length = 1) :
    ((softmaxCols Real.exp m).map List.sum).sum = 1 := by
  have hero : ∀ r ∈ m.map (fun row => row.map Real.exp), ∃ v : ℝ, r = [v] ∧ 0 < v := by
    intro r hr
    rcases List.mem_map.mp hr with ⟨r0, hr0, rfl⟩
    obtain ⟨a, rfl⟩ := List.length_eq_one.mp (hrow r0 hr0)
    exact ⟨Real.exp a, rfl, Real.exp_pos a⟩
  have hSpos : 0 < ((m.map (fun row => row.map Real.exp)).map
      (fun r => r.getD 0 0)).sum := by
    apply List.sum_pos
    · intro x hx
      rcases List.mem_map.mp hx with ⟨r, hr, rfl⟩
      obtain ⟨v, rfl, hv⟩ := hero r hr
      simpa using hv
    · intro hcon
      apply hne
      simpa using hcon
  have heq : (softmaxCols Real.exp m).map List.sum
      = (m.map (fun row => row.map Real.exp)).map
          (fun row => row.getD 0 0
            / ((m.map (fun row => row.map Real.exp)).map (fun r => r.getD 0 0)).sum) := by
    show ((m.map (fun row => row.map Real.exp)).map
        (fun row => row.mapIdx (fun k v =>
          v / ((m.map (fun row => row.map Real.exp)).map (fun r => r.getD k 0)).sum))).map
            List.sum = _
    rw [List.map_map]
    apply List.map_congr_left
    intro r hr
    obtain ⟨v, rfl, hv⟩ := hero r hr
    simp [List.mapIdx_cons]
  rw [heq, sum_map_div_real]
  exact div_self (ne_of_gt hSpos)

/-- C3: for every batch size B ≥ 1, embedding width E ≥ 1 and num_fields
N ≥ 2, `AttentionalFactorizationMachineLayer.forward` on a (B, N, E) input
returns a pooled output of shape exactly (B, 1, E) and attention weights of
shape exactly (B, C(N,2), 1). -/
theorem afm_forward_shapes (w1 : Mat ℝ) (b1 : List ℝ) (w2 : Mat ℝ) (b2 : List ℝ)
    (B N E attnSize : Nat) (emb : Ten3 ℝ)
    (hshape : Shape3 emb B N E) (hN : 2 ≤ N) (hB : 1 ≤ B) (hE : 1 ≤ E)
    (hw1 : w1.length = attnSize) (hb1 : b1.length = attnSize)
    (hw2 : w2.length = 1) (hb2 : b2.length = 1) :
    Shape3 (afmForward (afmInit w1 b1 w2 b2 N) emb).1 B 1 E
    ∧ Shape3 (afmForward (afmInit w1 b1 w2 b2 N) emb).2 B (N.choose 2) 1 := by
  obtain ⟨hlenB, hmats⟩ := hshape
  constructor
  · refine ⟨by simpa [afmForward, afmForwardGen] using hlenB, ?_⟩
    intro mm hmm
    simp only [afmForward, afmForwardGen, List.mem_map] at hmm
    obtain ⟨m, hm, rfl⟩ := hmm
    obtain ⟨hmN, hmE⟩ := hmats m hm
    refine ⟨by simp, ?_⟩
    intro r hrr
    rw [List.mem_singleton.mp hrr]
    exact (afmForwardMat_shape Real.exp w1 b1 w2 b2 N E m hmN hmE hN hw2 hb2).1
  · refine ⟨by simpa [afmForward, afmForwardGen] using hlenB, ?_⟩
    intro mm hmm
    simp only [afmForward, afmForwardGen, List.mem_map] at hmm
    obtain ⟨m, hm, rfl⟩ := hmm
    obtain ⟨hmN, hmE⟩ := hmats m hm
    exact ⟨(afmForwardMat_shape Real.exp w1 b1 w2 b2 N E m hmN hmE hN hw2 hb2).2.1,
      (afmForwardMat_shape Real.exp w1 b1 w2 b2 N E m hmN hmE hN hw2 hb2).2.2⟩

/-- Witness for C3 at B = 1, N = 2, E = 1, attn_size = 1 on the input
[[[1], [2]]]. -/
theorem afm_forward_shapes_witness :
    Shape3 ([[[1], [2]]] : Ten3 ℝ) 1 2 1
    ∧ Shape3 (afmForward (afmInit [[1]] [0] [[1]] [0] 2) [[[1], [2]]]).1 1 1 1
    ∧ Shape3 (afmForward (afmInit [[1]] [0] [[1]] [0] 2) [[[1], [2]]]).2 1
        (Nat.choose 2 2) 1 := by
  have hs : Shape3 ([[[1], [2]]] : Ten3 ℝ) 1 2 1 := by
    refine ⟨rfl, ?_⟩
    intro m hm
    rw [List.mem_singleton.mp hm]
    refine ⟨rfl, ?_⟩
    intro r hrr
    rcases List.mem_cons.mp hrr with h | h
    · rw [h]
      rfl
    · rw [List.mem_singleton.mp h]
      rfl
  exact ⟨hs,
    (afm_forward_shapes [[1]] [0] [[1]] [0] 1 2 1 1 [[[1], [2]]] hs (by decide)
      (by decide) (by decide) rfl rfl rfl rfl).1,
    (afm_forward_shapes [[1]] [0] [[1]] [0] 1 2 1 1 [[[1], [2]]] hs (by decide)
      (by decide) (by decide) rfl rfl rfl rfl).2⟩

/-- C4: with dropout disabled (evaluation mode), for every (B, N, E) input
with N ≥ 2, the attention weights returned by
`AttentionalFactorizationMachineLayer.forward` sum to 1 across the pair
dimension for every batch row (softmax invariant). -/
theorem afm_attention_weights_sum_one (w1 : Mat ℝ) (b1 : List ℝ) (w2 : Mat ℝ)
    (b2 : List ℝ) (B N E : Nat) (emb : Ten3 ℝ)
    (hshape : Shape3 emb B N E) (hN : 2 ≤ N)
    (hw2 : w2.length = 1) (hb2 : b2.length = 1) :
    ∀ mb ∈ (afmForward (afmInit w1 b1 w2 b2 N) emb).2,
      (mb.map List.sum).sum = 1 := by
  intro mb hmb
  simp only [afmForward, afmForwardGen, List.mem_map] at hmb
  obtain ⟨m, hm, rfl⟩ := hmb
  show ((softmaxCols Real.exp ((afmInnerMat (afmInit w1 b1 w2 b2 N) m).map
      (fun v => linearMap w2 b2 (reluV (linearMap w1 b1 v))))).map List.sum).sum = 1
  apply softmaxCols_sum_one
  · apply List.length_pos.mp
    have hinner_len : (afmInnerMat (afmInit w1 b1 w2 b2 N) m).length = N.choose 2 := by
      rw [afmInnerMat_length]
      show min (afmRowIdx N).length (afmColIdx N).length = N.choose 2
      rw [afmRowIdx_length, afmColIdx_length]
      simp
    rw [List.length_map, hinner_len]
    exact Nat.choose_pos hN
  · intro r hrr
    rcases List.mem_map.mp hrr with ⟨v, hv, rfl⟩
    simp [linearMap_length, hw2, hb2]

/-- Witness for C4 at B = 1, N = 2, E = 1 on the input [[[1], [2]]]. -/
theorem afm_attention_weights_sum_one_witness :
    Shape3 ([[[1], [2]]] : Ten3 ℝ) 1 2 1
    ∧ ∀ mb ∈ (afmForward (afmInit [[1]] [0] [[1]] [0] 2) [[[1], [2]]]).2,
        (mb.map List.sum).sum = 1 := by
  have hs : Shape3 ([[[1], [2]]] : Ten3 ℝ) 1 2 1 := by
    refine ⟨rfl, ?_⟩
    intro m hm
    rw [List.mem_singleton.mp hm]
    refine ⟨rfl, ?_⟩
    intro r hrr
    rcases List.mem_cons.mp hrr with h | h
    · rw [h]
      rfl
    · rw [List.mem_singleton.mp h]
      rfl
  exact ⟨hs, afm_attention_weights_sum_one [[1]] [0] [[1]] [0] 1 2 1 [[[1], [2]]]
    hs (by decide) rfl rfl⟩

end Torecsys
